-- Verification of the Eurofolic CIMS inventory application (src/src/App.jsx).
-- The JavaScript source is shallowly embedded: JS numbers are modelled as rationals,
-- JS string operations on ASCII letters are modelled on lists of characters, the
-- Supabase persistence layer is modelled by an oracle (an Except value for inserts,
-- a Bool for deletes) saying whether each database call succeeds, and React state
-- updates become explicit list-returning functions.
import Mathlib

namespace EurofolicCIMS

def jsLower (c : Char) : Char :=
  if 65 ≤ c.toNat ∧ c.toNat ≤ 90 then Char.ofNat (c.toNat + 32) else c

def jsUpper (c : Char) : Char :=
  if 97 ≤ c.toNat ∧ c.toNat ≤ 122 then Char.ofNat (c.toNat - 32) else c

def isLowerLetter (c : Char) : Bool := 97 ≤ c.toNat && c.toNat ≤ 122
def isUpperLetter (c : Char) : Bool := 65 ≤ c.toNat && c.toNat ≤ 90

theorem toNat_ofNat_valid (n : Nat) (h : n < 55296) : (Char.ofNat n).toNat = n := by
  rw [Char.ofNat, dif_pos (Or.inl h)]
  rfl

theorem jsLower_of_lower (c : Char) (h : isLowerLetter c = true) : jsLower c = c := by
  simp only [isLowerLetter, Bool.and_eq_true, decide_eq_true_eq] at h
  unfold jsLower
  rw [if_neg (by omega)]

theorem jsUpper_jsLower (c : Char) (h : isUpperLetter c = true) : jsUpper (jsLower c) = c := by
  simp only [isUpperLetter, Bool.and_eq_true, decide_eq_true_eq] at h
  unfold jsLower
  rw [if_pos (by omega)]
  unfold jsUpper
  rw [toNat_ofNat_valid _ (by omega)]
  rw [if_pos (by omega)]
  have h2 : c.toNat + 32 - 32 = c.toNat := by omega
  rw [h2, Char.ofNat_toNat]

theorem isLowerLetter_jsLower (c : Char) (h : isUpperLetter c = true) :
    isLowerLetter (jsLower c) = true := by
  simp only [isUpperLetter, Bool.and_eq_true, decide_eq_true_eq] at h
  unfold jsLower
  rw [if_pos (by omega)]
  simp only [isLowerLetter, Bool.and_eq_true, decide_eq_true_eq]
  rw [toNat_ofNat_valid _ (by omega)]
  omega

theorem jsLower_jsUpper (c : Char) (h : isLowerLetter c = true) : jsLower (jsUpper c) = c := by
  simp only [isLowerLetter, Bool.and_eq_true, decide_eq_true_eq] at h
  unfold jsUpper
  rw [if_pos (by omega)]
  unfold jsLower
  rw [toNat_ofNat_valid _ (by omega)]
  rw [if_pos (by omega)]
  have h2 : c.toNat - 32 + 32 = c.toNat := by omega
  rw [h2, Char.ofNat_toNat]

theorem isUpperLetter_jsUpper (c : Char) (h : isLowerLetter c = true) :
    isUpperLetter (jsUpper c) = true := by
  simp only [isLowerLetter, Bool.and_eq_true, decide_eq_true_eq] at h
  unfold jsUpper
  rw [if_pos (by omega)]
  simp only [isUpperLetter, Bool.and_eq_true, decide_eq_true_eq]
  rw [toNat_ofNat_valid _ (by omega)]
  omega

theorem not_upper_of_lower (c : Char) (h : isLowerLetter c = true) : isUpperLetter c = false := by
  simp only [isLowerLetter, Bool.and_eq_true, decide_eq_true_eq] at h
  simp only [isUpperLetter, Bool.and_eq_false_iff, decide_eq_false_iff_not]
  omega

theorem lower_ne_underscore (c : Char) (h : isLowerLetter c = true) : c ≠ '_' := by
  intro hc
  subst hc
  exact absurd h (by decide)

theorem upper_ne_underscore (c : Char) (h : isUpperLetter c = true) : c ≠ '_' := by
  intro hc
  subst hc
  exact absurd h (by decide)

-- key.replace(/_([a-z])/g, (_, letter) => letter.toUpperCase())
def camelChars : List Char → List Char
  | [] => []
  | [c] => [c]
  | c :: d :: rest =>
    if c = '_' ∧ isLowerLetter d then jsUpper d :: camelChars rest
    else c :: camelChars (d :: rest)

-- key.replace(/([A-Z])/g, (m) => '_' + m).toLowerCase()
def snakeChars : List Char → List Char
  | [] => []
  | c :: rest =>
    if isUpperLetter c then '_' :: jsLower c :: snakeChars rest
    else jsLower c :: snakeChars rest

def isAsciiLetter (c : Char) : Bool := isLowerLetter c || isUpperLetter c

def validCamelKey : List Char → Bool
  | [] => false
  | c :: rest => isLowerLetter c && rest.all isAsciiLetter

def validSnakeKey : List Char → Bool
  | [] => true
  | c :: rest =>
    if c = '_' then
      match rest with
      | [] => false
      | d :: _ => isLowerLetter d && validSnakeKey rest
    else isLowerLetter c && validSnakeKey rest

theorem camelChars_cons_ne (c : Char) (l : List Char) (h : c ≠ '_') :
    camelChars (c :: l) = c :: camelChars l := by
  cases l with
  | nil => rfl
  | cons d t =>
    rw [show camelChars (c :: d :: t) =
      if c = '_' ∧ isLowerLetter d then jsUpper d :: camelChars t
      else c :: camelChars (d :: t) from rfl]
    rw [if_neg (fun hc2 => h hc2.1)]

theorem camel_snakeChars : ∀ cs : List Char, cs.all isAsciiLetter = true →
    camelChars (snakeChars cs) = cs := by
  intro cs
  induction cs with
  | nil => intro _; rfl
  | cons c rest ih =>
    intro h
    rw [List.all_cons, Bool.and_eq_true] at h
    obtain ⟨hc, hrest⟩ := h
    unfold snakeChars
    by_cases hu : isUpperLetter c = true
    · rw [if_pos hu]
      unfold camelChars
      rw [if_pos ⟨rfl, isLowerLetter_jsLower c hu⟩]
      rw [jsUpper_jsLower c hu, ih hrest]
    · have hl : isLowerLetter c = true := by
        simp only [isAsciiLetter, Bool.or_eq_true] at hc
        tauto
      rw [if_neg hu, jsLower_of_lower c hl]
      rw [camelChars_cons_ne c _ (lower_ne_underscore c hl), ih hrest]

theorem snake_camelChars : ∀ cs : List Char, validSnakeKey cs = true →
    snakeChars (camelChars cs) = cs
  | [], _ => rfl
  | [c], h => by
    have hc : isLowerLetter c = true := by
      unfold validSnakeKey at h
      by_cases hu : c = '_'
      · rw [if_pos hu] at h; exact absurd h (by simp)
      · rw [if_neg hu] at h; exact (Bool.and_eq_true _ _ |>.mp h).1
    show snakeChars [c] = [c]
    unfold snakeChars
    rw [if_neg (by rw [not_upper_of_lower c hc]; simp), jsLower_of_lower c hc]
    rfl
  | c :: d :: rest, h => by
    by_cases hc : c = '_'
    · subst hc
      unfold validSnakeKey at h
      rw [if_pos rfl] at h
      obtain ⟨hd, hrest⟩ := Bool.and_eq_true _ _ |>.mp h
      have hrest2 : validSnakeKey rest = true := by
        unfold validSnakeKey at hrest
        rw [if_neg (lower_ne_underscore d hd)] at hrest
        exact (Bool.and_eq_true _ _ |>.mp hrest).2
      unfold camelChars
      rw [if_pos ⟨rfl, hd⟩]
      unfold snakeChars
      rw [if_pos (isUpperLetter_jsUpper d hd)]
      rw [jsLower_jsUpper d hd, snake_camelChars rest hrest2]
    · unfold validSnakeKey at h
      rw [if_neg hc] at h
      obtain ⟨hcl, hrest⟩ := Bool.and_eq_true _ _ |>.mp h
      unfold camelChars
      rw [if_neg (by intro hcontra; exact hc hcontra.1)]
      unfold snakeChars
      rw [if_neg (by rw [not_upper_of_lower c hcl]; simp)]
      rw [jsLower_of_lower c hcl, snake_camelChars (d :: rest) hrest]

def camelKey (s : String) : String := (camelChars s.toList).asString

def snakeKey (s : String) : String := (snakeChars s.toList).asString


def validCamelKeyStr (s : String) : Bool := validCamelKey s.toList

def validSnakeKeyStr (s : String) : Bool := validSnakeKey s.toList

theorem validCamelKey_all (cs : List Char) (h : validCamelKey cs = true) :
    cs.all isAsciiLetter = true := by
  cases cs with
  | nil => exact absurd h (by simp [validCamelKey])
  | cons c rest =>
    unfold validCamelKey at h
    obtain ⟨h1, h2⟩ := Bool.and_eq_true _ _ |>.mp h
    simp only [List.all_cons, Bool.and_eq_true]
    exact ⟨by simp [isAsciiLetter, h1], h2⟩

theorem camelKey_snakeKey (k : String) (h : validCamelKeyStr k = true) :
    camelKey (snakeKey k) = k := by
  unfold camelKey snakeKey
  show (camelChars (snakeChars k.toList)).asString = k
  rw [camel_snakeChars k.toList (validCamelKey_all _ h)]
  exact rfl

theorem snakeKey_camelKey (k : String) (h : validSnakeKeyStr k = true) :
    snakeKey (camelKey k) = k := by
  unfold camelKey snakeKey
  show (snakeChars (camelChars k.toList)).asString = k
  rw [snake_camelChars k.toList h]
  exact rfl

inductive JVal where
  | null
  | bool (b : Bool)
  | num (q : ℚ)
  | str (s : String)
  | arr (elems : List JVal)
  | obj (fields : List (String × JVal))

def putKey (kvs : List (String × JVal)) (k : String) (v : JVal) : List (String × JVal) :=
  if kvs.any (fun p => p.1 == k) then kvs.map (fun p => if p.1 == k then (k, v) else p)
  else kvs ++ [(k, v)]

mutual
def toCamelCase : JVal → JVal
  | .null => .null
  | .bool b => .bool b
  | .num q => .num q
  | .str s => .str s
  | .arr xs => .arr (camelList xs)
  | .obj kvs => .obj (camelFields [] kvs)

def camelList : List JVal → List JVal
  | [] => []
  | x :: xs => toCamelCase x :: camelList xs

def camelFields : List (String × JVal) → List (String × JVal) → List (String × JVal)
  | acc, [] => acc
  | acc, (k, v) :: kvs => camelFields (putKey acc (camelKey k) (toCamelCase v)) kvs
end

mutual
def toSnakeCase : JVal → JVal
  | .null => .null
  | .bool b => .bool b
  | .num q => .num q
  | .str s => .str s
  | .arr xs => .arr (snakeList xs)
  | .obj kvs => .obj (snakeFields [] kvs)

def snakeList : List JVal → List JVal
  | [] => []
  | x :: xs => toSnakeCase x :: snakeList xs

def snakeFields : List (String × JVal) → List (String × JVal) → List (String × JVal)
  | acc, [] => acc
  | acc, (k, v) :: kvs => snakeFields (putKey acc (snakeKey k) (toSnakeCase v)) kvs
end

theorem sizeOf_snd_lt (p : String × JVal) : sizeOf p.2 < sizeOf p := by
  obtain ⟨a, b⟩ := p
  simp

theorem JVal.indOn (P : JVal → Prop)
    (hnull : P .null)
    (hbool : ∀ b, P (.bool b))
    (hnum : ∀ q, P (.num q))
    (hstr : ∀ s, P (.str s))
    (harr : ∀ xs, (∀ x ∈ xs, P x) → P (.arr xs))
    (hobj : ∀ kvs, (∀ p ∈ kvs, P p.2) → P (.obj kvs)) :
    ∀ v, P v
  | .null => hnull
  | .bool b => hbool b
  | .num q => hnum q
  | .str s => hstr s
  | .arr xs => harr xs (fun x hx =>
      have _hlt := List.sizeOf_lt_of_mem hx
      JVal.indOn P hnull hbool hnum hstr harr hobj x)
  | .obj kvs => hobj kvs (fun p hp =>
      have _hlt := List.sizeOf_lt_of_mem hp
      JVal.indOn P hnull hbool hnum hstr harr hobj p.2)
termination_by v => sizeOf v
decreasing_by
· simp only [JVal.arr.sizeOf_spec]
  omega
· have h2 := sizeOf_snd_lt p
  simp only [JVal.obj.sizeOf_spec]
  omega

def nodupKeys : List String → Bool
  | [] => true
  | k :: ks => if k ∈ ks then false else nodupKeys ks

mutual
def camelShaped : JVal → Bool
  | .null => true
  | .bool _ => true
  | .num _ => true
  | .str _ => true
  | .arr xs => camelShapedList xs
  | .obj kvs =>
    nodupKeys (kvs.map Prod.fst) && (kvs.map Prod.fst).all validCamelKeyStr &&
      camelShapedFields kvs

def camelShapedList : List JVal → Bool
  | [] => true
  | x :: xs => camelShaped x && camelShapedList xs

def camelShapedFields : List (String × JVal) → Bool
  | [] => true
  | p :: kvs => camelShaped p.2 && camelShapedFields kvs
end

mutual
def snakeShaped : JVal → Bool
  | .null => true
  | .bool _ => true
  | .num _ => true
  | .str _ => true
  | .arr xs => snakeShapedList xs
  | .obj kvs =>
    nodupKeys (kvs.map Prod.fst) && (kvs.map Prod.fst).all validSnakeKeyStr &&
      snakeShapedFields kvs

def snakeShapedList : List JVal → Bool
  | [] => true
  | x :: xs => snakeShaped x && snakeShapedList xs

def snakeShapedFields : List (String × JVal) → Bool
  | [] => true
  | p :: kvs => snakeShaped p.2 && snakeShapedFields kvs
end

theorem nodupKeys_iff (l : List String) : nodupKeys l = true ↔ l.Nodup := by
  induction l with
  | nil => simp [nodupKeys]
  | cons k ks ih =>
    unfold nodupKeys
    by_cases hk : k ∈ ks
    · simp [hk]
    · simp [hk, ih]

theorem camelShapedFields_iff (kvs : List (String × JVal)) :
    camelShapedFields kvs = true ↔ ∀ p ∈ kvs, camelShaped p.2 = true := by
  induction kvs with
  | nil => simp [camelShapedFields]
  | cons p kvs ih =>
    unfold camelShapedFields
    rw [Bool.and_eq_true, ih]
    simp

theorem snakeShapedFields_iff (kvs : List (String × JVal)) :
    snakeShapedFields kvs = true ↔ ∀ p ∈ kvs, snakeShaped p.2 = true := by
  induction kvs with
  | nil => simp [snakeShapedFields]
  | cons p kvs ih =>
    unfold snakeShapedFields
    rw [Bool.and_eq_true, ih]
    simp

theorem camelShapedList_iff (xs : List JVal) :
    camelShapedList xs = true ↔ ∀ x ∈ xs, camelShaped x = true := by
  induction xs with
  | nil => simp [camelShapedList]
  | cons x xs ih =>
    unfold camelShapedList
    rw [Bool.and_eq_true, ih]
    simp

theorem snakeShapedList_iff (xs : List JVal) :
    snakeShapedList xs = true ↔ ∀ x ∈ xs, snakeShaped x = true := by
  induction xs with
  | nil => simp [snakeShapedList]
  | cons x xs ih =>
    unfold snakeShapedList
    rw [Bool.and_eq_true, ih]
    simp

theorem putKey_of_not_mem (kvs : List (String × JVal)) (k : String) (v : JVal)
    (h : k ∉ kvs.map Prod.fst) : putKey kvs k v = kvs ++ [(k, v)] := by
  unfold putKey
  rw [if_neg]
  simp only [List.any_eq_true, beq_iff_eq, not_exists]
  intro p hp
  exact h (hp.2 ▸ List.mem_map_of_mem Prod.fst hp.1)

theorem camelFields_eq : ∀ (kvs acc : List (String × JVal)),
    (acc.map Prod.fst ++ kvs.map (fun p => camelKey p.1)).Nodup →
    camelFields acc kvs = acc ++ kvs.map (fun p => (camelKey p.1, toCamelCase p.2)) := by
  intro kvs
  induction kvs with
  | nil =>
    intro acc _
    simp [camelFields]
  | cons p kvs ih =>
    intro acc hnd
    obtain ⟨k, v⟩ := p
    simp only [List.map_cons] at hnd
    have hknotin : camelKey k ∉ acc.map Prod.fst := by
      have hdisj := (List.nodup_append.mp hnd).2.2
      intro hmem
      exact hdisj hmem (List.mem_cons_self _ _)
    show camelFields (putKey acc (camelKey k) (toCamelCase v)) kvs = _
    rw [putKey_of_not_mem acc _ _ hknotin]
    rw [ih (acc ++ [(camelKey k, toCamelCase v)]) (by
      simp only [List.map_append, List.map_cons, List.map_nil]
      rw [List.append_assoc]
      simpa using hnd)]
    simp

theorem snakeFields_eq : ∀ (kvs acc : List (String × JVal)),
    (acc.map Prod.fst ++ kvs.map (fun p => snakeKey p.1)).Nodup →
    snakeFields acc kvs = acc ++ kvs.map (fun p => (snakeKey p.1, toSnakeCase p.2)) := by
  intro kvs
  induction kvs with
  | nil =>
    intro acc _
    simp [snakeFields]
  | cons p kvs ih =>
    intro acc hnd
    obtain ⟨k, v⟩ := p
    simp only [List.map_cons] at hnd
    have hknotin : snakeKey k ∉ acc.map Prod.fst := by
      have hdisj := (List.nodup_append.mp hnd).2.2
      intro hmem
      exact hdisj hmem (List.mem_cons_self _ _)
    show snakeFields (putKey acc (snakeKey k) (toSnakeCase v)) kvs = _
    rw [putKey_of_not_mem acc _ _ hknotin]
    rw [ih (acc ++ [(snakeKey k, toSnakeCase v)]) (by
      simp only [List.map_append, List.map_cons, List.map_nil]
      rw [List.append_assoc]
      simpa using hnd)]
    simp

theorem camelObj_roundtrip (kvs : List (String × JVal))
    (ih : ∀ p ∈ kvs, camelShaped p.2 = true → toCamelCase (toSnakeCase p.2) = p.2)
    (hnd : (kvs.map Prod.fst).Nodup)
    (hval : ∀ k ∈ kvs.map Prod.fst, validCamelKeyStr k = true)
    (hf : ∀ p ∈ kvs, camelShaped p.2 = true) :
    camelFields [] (snakeFields [] kvs) = kvs := by
  have hinj : ((kvs.map Prod.fst).map snakeKey).Nodup := by
    apply hnd.map_on
    intro x hx y hy hxy
    have hcc := congrArg camelKey hxy
    rwa [camelKey_snakeKey x (hval x hx), camelKey_snakeKey y (hval y hy)] at hcc
  rw [snakeFields_eq kvs [] (by
    simp only [List.map_nil, List.nil_append]
    rw [show (kvs.map (fun p => snakeKey p.1)) = (kvs.map Prod.fst).map snakeKey by
      rw [List.map_map]; rfl]
    exact hinj)]
  rw [List.nil_append]
  rw [camelFields_eq (kvs.map (fun p => (snakeKey p.1, toSnakeCase p.2))) [] (by
    simp only [List.map_nil, List.nil_append, List.map_map]
    rw [show kvs.map ((fun p : String × JVal => camelKey p.1) ∘
        (fun p : String × JVal => (snakeKey p.1, toSnakeCase p.2))) = kvs.map Prod.fst by
      apply List.map_congr_left
      intro p hp
      show camelKey (snakeKey p.1) = p.1
      exact camelKey_snakeKey _ (hval _ (List.mem_map_of_mem _ hp))]
    exact hnd)]
  rw [List.nil_append, List.map_map]
  have hmap : kvs.map ((fun p : String × JVal => (camelKey p.1, toCamelCase p.2)) ∘
      (fun p : String × JVal => (snakeKey p.1, toSnakeCase p.2))) = kvs.map id := by
    apply List.map_congr_left
    intro p hp
    show (camelKey (snakeKey p.1), toCamelCase (toSnakeCase p.2)) = id p
    rw [camelKey_snakeKey _ (hval _ (List.mem_map_of_mem _ hp)), ih p hp (hf p hp)]
    rfl
  rw [hmap, List.map_id]

theorem snakeObj_roundtrip (kvs : List (String × JVal))
    (ih : ∀ p ∈ kvs, snakeShaped p.2 = true → toSnakeCase (toCamelCase p.2) = p.2)
    (hnd : (kvs.map Prod.fst).Nodup)
    (hval : ∀ k ∈ kvs.map Prod.fst, validSnakeKeyStr k = true)
    (hf : ∀ p ∈ kvs, snakeShaped p.2 = true) :
    snakeFields [] (camelFields [] kvs) = kvs := by
  have hinj : ((kvs.map Prod.fst).map camelKey).Nodup := by
    apply hnd.map_on
    intro x hx y hy hxy
    have hcc := congrArg snakeKey hxy
    rwa [snakeKey_camelKey x (hval x hx), snakeKey_camelKey y (hval y hy)] at hcc
  rw [camelFields_eq kvs [] (by
    simp only [List.map_nil, List.nil_append]
    rw [show (kvs.map (fun p => camelKey p.1)) = (kvs.map Prod.fst).map camelKey by
      rw [List.map_map]; rfl]
    exact hinj)]
  rw [List.nil_append]
  rw [snakeFields_eq (kvs.map (fun p => (camelKey p.1, toCamelCase p.2))) [] (by
    simp only [List.map_nil, List.nil_append, List.map_map]
    rw [show kvs.map ((fun p : String × JVal => snakeKey p.1) ∘
        (fun p : String × JVal => (camelKey p.1, toCamelCase p.2))) = kvs.map Prod.fst by
      apply List.map_congr_left
      intro p hp
      show snakeKey (camelKey p.1) = p.1
      exact snakeKey_camelKey _ (hval _ (List.mem_map_of_mem _ hp))]
    exact hnd)]
  rw [List.nil_append, List.map_map]
  have hmap : kvs.map ((fun p : String × JVal => (snakeKey p.1, toSnakeCase p.2)) ∘
      (fun p : String × JVal => (camelKey p.1, toCamelCase p.2))) = kvs.map id := by
    apply List.map_congr_left
    intro p hp
    show (snakeKey (camelKey p.1), toSnakeCase (toCamelCase p.2)) = id p
    rw [snakeKey_camelKey _ (hval _ (List.mem_map_of_mem _ hp)), ih p hp (hf p hp)]
    rfl
  rw [hmap, List.map_id]

theorem camelList_snakeList : ∀ xs : List JVal,
    (∀ x ∈ xs, camelShaped x = true → toCamelCase (toSnakeCase x) = x) →
    (∀ x ∈ xs, camelShaped x = true) →
    camelList (snakeList xs) = xs
  | [], _, _ => rfl
  | x :: xs, ih, h => by
    show toCamelCase (toSnakeCase x) :: camelList (snakeList xs) = x :: xs
    rw [ih x (by simp) (h x (by simp)),
      camelList_snakeList xs (fun y hy hc => ih y (by simp [hy]) hc)
        (fun y hy => h y (by simp [hy]))]

theorem snakeList_camelList : ∀ xs : List JVal,
    (∀ x ∈ xs, snakeShaped x = true → toSnakeCase (toCamelCase x) = x) →
    (∀ x ∈ xs, snakeShaped x = true) →
    snakeList (camelList xs) = xs
  | [], _, _ => rfl
  | x :: xs, ih, h => by
    show toSnakeCase (toCamelCase x) :: snakeList (camelList xs) = x :: xs
    rw [ih x (by simp) (h x (by simp)),
      snakeList_camelList xs (fun y hy hc => ih y (by simp [hy]) hc)
        (fun y hy => h y (by simp [hy]))]

theorem toCamel_toSnake : ∀ v, camelShaped v = true → toCamelCase (toSnakeCase v) = v := by
  intro v
  induction v using JVal.indOn with
  | hnull => intro _; rfl
  | hbool b => intro _; rfl
  | hnum q => intro _; rfl
  | hstr s => intro _; rfl
  | harr xs ih =>
    intro h
    have hxs : ∀ x ∈ xs, camelShaped x = true := by
      rw [← camelShapedList_iff]
      exact h
    show JVal.arr (camelList (snakeList xs)) = JVal.arr xs
    congr 1
    exact camelList_snakeList xs ih hxs
  | hobj kvs ih =>
    intro h
    have h3 : camelShaped (JVal.obj kvs) =
        (nodupKeys (kvs.map Prod.fst) && (kvs.map Prod.fst).all validCamelKeyStr &&
          camelShapedFields kvs) := rfl
    rw [h3, Bool.and_eq_true, Bool.and_eq_true] at h
    obtain ⟨⟨hnd, hval⟩, hflds⟩ := h
    show JVal.obj (camelFields [] (snakeFields [] kvs)) = JVal.obj kvs
    congr 1
    exact camelObj_roundtrip kvs ih ((nodupKeys_iff _).mp hnd)
      (List.all_eq_true.mp hval) ((camelShapedFields_iff _).mp hflds)

theorem toSnake_toCamel : ∀ v, snakeShaped v = true → toSnakeCase (toCamelCase v) = v := by
  intro v
  induction v using JVal.indOn with
  | hnull => intro _; rfl
  | hbool b => intro _; rfl
  | hnum q => intro _; rfl
  | hstr s => intro _; rfl
  | harr xs ih =>
    intro h
    have hxs : ∀ x ∈ xs, snakeShaped x = true := by
      rw [← snakeShapedList_iff]
      exact h
    show JVal.arr (snakeList (camelList xs)) = JVal.arr xs
    congr 1
    exact snakeList_camelList xs ih hxs
  | hobj kvs ih =>
    intro h
    have h3 : snakeShaped (JVal.obj kvs) =
        (nodupKeys (kvs.map Prod.fst) && (kvs.map Prod.fst).all validSnakeKeyStr &&
          snakeShapedFields kvs) := rfl
    rw [h3, Bool.and_eq_true, Bool.and_eq_true] at h
    obtain ⟨⟨hnd, hval⟩, hflds⟩ := h
    show JVal.obj (snakeFields [] (camelFields [] kvs)) = JVal.obj kvs
    congr 1
    exact snakeObj_roundtrip kvs ih ((nodupKeys_iff _).mp hnd)
      (List.all_eq_true.mp hval) ((snakeShapedFields_iff _).mp hflds)

def SIZES : List String := ["5ml", "10ml", "100ml"]

def vialsPerPack (size : String) : ℚ :=
  if size = "5ml" then 5 else if size = "10ml" then 5 else if size = "100ml" then 1 else 0

structure Sale where
  id : Nat
  customerId : Option Nat
  customer : String
  country : String
  endDestination : String
  size : String
  batchNumber : Option String
  units : ℚ
  price : ℚ
  saleDate : String
  vials : Option Int
  convertedFrom : Option String
  originalHoldId : Option Nat
  convertedBy : Option String
  createdBy : String
deriving DecidableEq

structure StockHold where
  id : Nat
  customerId : Option Nat
  customer : String
  country : String
  endDestination : String
  size : String
  units : ℚ
  vials : Int
  notes : Option String
  holdDate : String
  revertedFrom : Option String
  originalSaleId : Option Nat
  revertedBy : Option String
  createdBy : String
deriving DecidableEq

structure Purchase where
  id : Nat
  supplierId : Option Nat
  supplier : String
  size : String
  batchNumber : String
  expiryDate : String
  units : ℚ
  cost : ℚ
  purchaseDate : String
  createdBy : String
deriving DecidableEq

structure StockAdjustment where
  id : Nat
  size : String
  batchNumber : String
  units : ℚ
  vials : Int
  reason : String
  recipient : Option String
  notes : Option String
  costPerPack : ℚ
  totalCost : ℚ
  adjustmentDate : String
  createdBy : String
deriving DecidableEq

structure Metrics where
  stock : ℚ
  revenue : ℚ
  cost : ℚ
  sold : ℚ
  purchased : ℚ
  adjusted : ℚ
  stockValue : ℚ
  margin : ℚ
  adjustedValue : ℚ
  vialsPerPack : ℚ
  soldVials : ℚ
  purchasedVials : ℚ
  adjustedVials : ℚ
  stockVials : ℚ
deriving DecidableEq

def calcMetrics (sales : List Sale) (purchases : List Purchase)
    (stockAdjustments : List StockAdjustment) (size : String) : Metrics :=
  let ss := sales.filter (fun s => s.size == size)
  let ps := purchases.filter (fun p => p.size == size)
  let adj := stockAdjustments.filter (fun a => a.size == size)
  let sold : ℚ := ss.foldl (fun a s => a + s.units) 0
  let purchased : ℚ := ps.foldl (fun a p => a + p.units) 0
  let adjusted : ℚ := adj.foldl (fun a x => a + x.units) 0
  let adjustedValue : ℚ := adj.foldl (fun a x => a + x.units * x.costPerPack) 0
  let revenue : ℚ := ss.foldl (fun a s => a + s.units * s.price) 0
  let cost : ℚ := ps.foldl (fun a p => a + p.units * p.cost) 0
  let avgCost : ℚ := if purchased > 0 then cost / purchased else 0
  let stock : ℚ := purchased - sold - adjusted
  let vpp : ℚ := vialsPerPack size
  { stock := stock
    revenue := revenue
    cost := cost
    sold := sold
    purchased := purchased
    adjusted := adjusted
    stockValue := stock * avgCost
    margin := revenue - sold * avgCost
    adjustedValue := adjustedValue
    vialsPerPack := vpp
    soldVials := sold * vpp
    purchasedVials := purchased * vpp
    adjustedVials := adjusted * vpp
    stockVials := stock * vpp }

theorem foldl_add_eq_sum (f : α → ℚ) : ∀ (l : List α) (a : ℚ),
    l.foldl (fun acc x => acc + f x) a = a + (l.map f).sum
  | [], a => by simp
  | x :: l, a => by
    show (l.foldl (fun acc y => acc + f y) (a + f x)) = _
    rw [foldl_add_eq_sum f l (a + f x)]
    simp [add_assoc]

def purchase0 : Purchase where
  id := 1
  supplierId := none
  supplier := "S"
  size := "5ml"
  batchNumber := "B1"
  expiryDate := "2027-01-01"
  units := 10
  cost := 4
  purchaseDate := "2026-01-01"
  createdBy := "AB"



structure SaleInput where
  customerId : Option Nat
  customer : String
  country : String
  endDestination : String
  size : String
  batchNumber : Option String
  units : ℚ
  price : ℚ
  saleDate : String
  convertedFrom : Option String
  originalHoldId : Option Nat
  convertedBy : Option String
  createdBy : String
deriving DecidableEq

def mkSale (newId : Nat) (inp : SaleInput) : Sale where
  id := newId
  customerId := inp.customerId
  customer := inp.customer
  country := inp.country
  endDestination := inp.endDestination
  size := inp.size
  batchNumber := inp.batchNumber
  units := inp.units
  price := inp.price
  saleDate := inp.saleDate
  vials := none
  convertedFrom := inp.convertedFrom
  originalHoldId := inp.originalHoldId
  convertedBy := inp.convertedBy
  createdBy := inp.createdBy

def addSale (sales : List Sale) (inp : SaleInput) (db : Except String Nat) :
    List Sale × Except String Sale :=
  match db with
  | .ok newId => (mkSale newId inp :: sales, .ok (mkSale newId inp))
  | .error m => (sales, .error m)

def deleteSale (sales : List Sale) (id : Nat) (dbOk : Bool) : List Sale :=
  if dbOk then sales.filter (fun s => s.id != id) else sales

structure HoldInput where
  customerId : Option Nat
  customer : String
  country : String
  endDestination : String
  size : String
  units : ℚ
  vials : Int
  notes : Option String
  holdDate : String
  revertedFrom : Option String
  originalSaleId : Option Nat
  revertedBy : Option String
  createdBy : String
deriving DecidableEq

def mkStockHold (newId : Nat) (inp : HoldInput) : StockHold where
  id := newId
  customerId := inp.customerId
  customer := inp.customer
  country := inp.country
  endDestination := inp.endDestination
  size := inp.size
  units := inp.units
  vials := inp.vials
  notes := inp.notes
  holdDate := inp.holdDate
  revertedFrom := inp.revertedFrom
  originalSaleId := inp.originalSaleId
  revertedBy := inp.revertedBy
  createdBy := inp.createdBy

def addStockHold (holds : List StockHold) (inp : HoldInput) (db : Except String Nat) :
    List StockHold × Except String StockHold :=
  match db with
  | .ok newId => (mkStockHold newId inp :: holds, .ok (mkStockHold newId inp))
  | .error m => (holds, .error m)

def deleteStockHold (holds : List StockHold) (id : Nat) (dbOk : Bool) : List StockHold :=
  if dbOk then holds.filter (fun h => h.id != id) else holds

structure AppState where
  sales : List Sale
  stockHolds : List StockHold
deriving DecidableEq

inductive OpResult where
  | ok (id : Nat)
  | err (msg : String)
deriving DecidableEq

structure SaleDetails where
  batchNumber : Option String
  price : ℚ
  saleDate : String
deriving DecidableEq

def convertHoldToSale (st : AppState) (holdId : Nat) (details : SaleDetails)
    (who : String) (db : Except String Nat) (deleteOk : Bool) : AppState × OpResult :=
  match st.stockHolds.find? (fun h => h.id == holdId) with
  | none => (st, .err "Stock hold not found")
  | some hold =>
    let inp : SaleInput :=
      { customerId := hold.customerId
        customer := hold.customer
        country := hold.country
        endDestination := hold.endDestination
        size := hold.size
        batchNumber := details.batchNumber
        units := hold.units
        price := details.price
        saleDate := details.saleDate
        convertedFrom := some "stockHold"
        originalHoldId := some holdId
        convertedBy := some who
        createdBy := who }
    match addSale st.sales inp db with
    | (sales1, .ok s) =>
      ({ sales := sales1, stockHolds := deleteStockHold st.stockHolds holdId deleteOk }, .ok s.id)
    | (_, .error m) => (st, .err m)

def jsRound (x : ℚ) : Int := Int.floor (x + 1/2)

def revertVials (sale : Sale) : Int :=
  match sale.vials with
  | some v => if v = 0 then jsRound (sale.units * vialsPerPack sale.size) else v
  | none => jsRound (sale.units * vialsPerPack sale.size)

def revertSaleToHold (st : AppState) (saleId : Nat) (who : String)
    (todayLocale todayIso : String) (db : Except String Nat) (deleteOk : Bool) :
    AppState × OpResult :=
  match st.sales.find? (fun s => s.id == saleId) with
  | none => (st, .err "Sale not found")
  | some sale =>
    if sale.convertedFrom = some "stockHold" then
      let inp : HoldInput :=
        { customerId := sale.customerId
          customer := sale.customer
          country := sale.country
          endDestination := sale.endDestination
          size := sale.size
          units := sale.units
          vials := revertVials sale
          notes := some ("Reverted from sale on " ++ todayLocale)
          holdDate := todayIso
          revertedFrom := some "sale"
          originalSaleId := some saleId
          revertedBy := some who
          createdBy := who }
      match addStockHold st.stockHolds inp db with
      | (holds1, .ok h) =>
        ({ sales := deleteSale st.sales saleId deleteOk, stockHolds := holds1 }, .ok h.id)
      | (_, .error m) => (st, .err m)
    else (st, .err "This sale was not converted from a stock hold")

-- ==================== PIPELINE ====================
structure PipelinePurchase where
  id : Nat
  poNumber : String
  supplier : String
  size : String
  units : ℚ
  price : ℚ
  totalValue : ℚ
  expectedDate : String
  status : String
  createdBy : String
deriving DecidableEq

structure PipelineInput where
  poNumber : String
  supplier : String
  size : String
  units : ℚ
  price : ℚ
  totalValue : ℚ
  expectedDate : String
  status : String
deriving DecidableEq

def pipelineStatuses : List String := ["Ordered", "In Transit", "Delayed", "Received"]

def mkPipelinePurchase (newId : Nat) (pp : PipelineInput) (who : String) : PipelinePurchase where
  id := newId
  poNumber := pp.poNumber
  supplier := pp.supplier
  size := pp.size
  units := pp.units
  price := pp.price
  totalValue := pp.totalValue
  expectedDate := pp.expectedDate
  status := if pp.status = "" then "Ordered" else pp.status
  createdBy := who

def addPipelinePurchase (pps : List PipelinePurchase) (pp : PipelineInput) (who : String)
    (db : Except String Nat) : List PipelinePurchase :=
  match db with
  | .ok newId => pps ++ [mkPipelinePurchase newId pp who]
  | .error _ => pps

def deletePipelinePurchase (pps : List PipelinePurchase) (id : Nat) (dbOk : Bool) :
    List PipelinePurchase :=
  if dbOk then pps.filter (fun p => p.id != id) else pps

structure PipelineForm where
  poNumber : String
  supplier : String
  size : String
  vials : ℚ
  pricePerVial : ℚ
  expectedDate : String
  status : String
deriving DecidableEq

def pipelineHandleSubmit (pps : List PipelinePurchase) (form : PipelineForm) (who : String)
    (db : Except String Nat) : List PipelinePurchase :=
  if form.poNumber = "" ∨ form.supplier = "" ∨ form.vials = 0 ∨ form.pricePerVial = 0 ∨
      form.expectedDate = "" then pps
  else
    let packs := form.vials / vialsPerPack form.size
    let pricePerPack := form.pricePerVial * vialsPerPack form.size
    addPipelinePurchase pps
      { poNumber := form.poNumber
        supplier := form.supplier
        size := form.size
        units := packs
        price := pricePerPack
        totalValue := packs * pricePerPack
        expectedDate := form.expectedDate
        status := form.status } who db

-- ==================== USERS / LOGIN ====================
structure DbUser where
  id : Nat
  username : String
  password : String
  name : String
  initials : String
  role : String
deriving DecidableEq

structure Session where
  id : Nat
  username : String
  role : String
  name : String
  initials : String
deriving DecidableEq

-- SQL ILIKE pattern matching (case-insensitive), as used by supabase .ilike
def likeMatch : List Char → List Char → Bool
  | [], [] => true
  | [], _ :: _ => false
  | '%' :: ps, [] => likeMatch ps []
  | '%' :: ps, c :: cs => likeMatch ps (c :: cs) || likeMatch ('%' :: ps) cs
  | '_' :: ps, _ :: cs => likeMatch ps cs
  | '_' :: _, [] => false
  | '\\' :: p :: ps, c :: cs => (jsLower p == jsLower c) && likeMatch ps cs
  | '\\' :: _, [] => false
  | p :: ps, c :: cs => (jsLower p == jsLower c) && likeMatch ps cs
  | _ :: _, [] => false
termination_by ps cs => ps.length + cs.length

def ilike (pattern s : String) : Bool := likeMatch pattern.toList s.toList

def mkSession (u : DbUser) : Session where
  id := u.id
  username := u.username
  role := u.role
  name := u.name
  initials := if u.initials = "" then (u.username.take 3).toUpper else u.initials

inductive LoginResult where
  | ok
  | err (msg : String)
deriving DecidableEq

def loginQuery (users : List DbUser) (username password : String) : List DbUser :=
  users.filter (fun u => ilike username u.username && u.password == password)

def handleLogin (users : List DbUser) (username password : String)
    (cur : Option Session) : Option Session × LoginResult :=
  match loginQuery users username password with
  | [u] => (some (mkSession u), .ok)
  | _ => (cur, .err "Invalid credentials")

def deleteUser (users : List DbUser) (id : Nat) (dbOk : Bool) : List DbUser × Bool :=
  match users.find? (fun u => u.id == id) with
  | some u =>
    if u.username = "admin" then (users, false)
    else (if dbOk then users.filter (fun x => x.id != id) else users, true)
  | none => (if dbOk then users.filter (fun x => x.id != id) else users, true)

/-- Claim C1: for every size in SIZES and every state of the sales, purchases and
stockAdjustments collections, `calcMetrics` computes stock for that size as the sum of
purchased units minus the sum of sold units minus the sum of adjusted units over the
records of that size (in packs), and stockVials as stock times the fixed per-size
multiplier (5ml to 5, 10ml to 5, 100ml to 1). -/
theorem calcMetrics_stock_correct (sales : List Sale) (purchases : List Purchase)
    (adjustments : List StockAdjustment) (size : String) (_hsize : size ∈ SIZES) :
    (calcMetrics sales purchases adjustments size).stock =
      ((purchases.filter (fun p => p.size == size)).map (fun p => p.units)).sum
      - ((sales.filter (fun s => s.size == size)).map (fun s => s.units)).sum
      - ((adjustments.filter (fun a => a.size == size)).map (fun a => a.units)).sum
    ∧ (calcMetrics sales purchases adjustments size).stockVials =
      (calcMetrics sales purchases adjustments size).stock * vialsPerPack size
    ∧ vialsPerPack "5ml" = 5 ∧ vialsPerPack "10ml" = 5 ∧ vialsPerPack "100ml" = 1 := by
  refine ⟨?_, ?_, by rw [vialsPerPack, if_pos rfl],
    by rw [vialsPerPack, if_neg (by decide), if_pos rfl],
    by rw [vialsPerPack, if_neg (by decide), if_neg (by decide), if_pos rfl]⟩
  · simp only [calcMetrics, foldl_add_eq_sum, zero_add]
  · simp only [calcMetrics]

/-- Claim C4: `calcMetrics` computes margin as revenue minus sold times the average
cost, where the average cost is total purchase cost divided by total purchased units
when the latter is strictly positive and 0 otherwise; in particular when nothing has
been purchased for a size the margin equals the revenue. -/
theorem calcMetrics_margin_correct (sales : List Sale) (purchases : List Purchase)
    (adjustments : List StockAdjustment) (size : String) :
    ((calcMetrics sales purchases adjustments size).margin =
      (calcMetrics sales purchases adjustments size).revenue -
        (calcMetrics sales purchases adjustments size).sold *
        (if 0 < ((purchases.filter (fun p => p.size == size)).map (fun p => p.units)).sum
         then ((purchases.filter (fun p => p.size == size)).map (fun p => p.units * p.cost)).sum
            / ((purchases.filter (fun p => p.size == size)).map (fun p => p.units)).sum
         else 0))
    ∧ (((purchases.filter (fun p => p.size == size)).map (fun p => p.units)).sum = 0 →
        (calcMetrics sales purchases adjustments size).margin =
          (calcMetrics sales purchases adjustments size).revenue) := by
  constructor
  · simp only [calcMetrics, foldl_add_eq_sum, zero_add]
  · intro h0
    simp only [calcMetrics, foldl_add_eq_sum, zero_add, h0]
    norm_num

/-- Claim C2: for a hold found in the stockHolds collection, `convertHoldToSale`
creates a sale carrying over the hold customer, customerId, country, endDestination,
size and units, records lineage convertedFrom = "stockHold" and originalHoldId equal
to the hold id, and removes the hold; for an id not present it returns the error
"Stock hold not found" and changes nothing. -/
theorem convertHoldToSale_correct (st : AppState) (holdId : Nat) (details : SaleDetails)
    (who : String) (newId : Nat) (db : Except String Nat) (deleteOk : Bool) :
    (∀ hold, st.stockHolds.find? (fun h => h.id == holdId) = some hold →
      (convertHoldToSale st holdId details who (.ok newId) true).2 = .ok newId ∧
      (∃ s, (convertHoldToSale st holdId details who (.ok newId) true).1.sales =
          s :: st.sales ∧
        s.customer = hold.customer ∧ s.customerId = hold.customerId ∧
        s.country = hold.country ∧ s.endDestination = hold.endDestination ∧
        s.size = hold.size ∧ s.units = hold.units ∧
        s.convertedFrom = some "stockHold" ∧ s.originalHoldId = some holdId) ∧
      (convertHoldToSale st holdId details who (.ok newId) true).1.stockHolds =
        st.stockHolds.filter (fun h => h.id != holdId) ∧
      ∀ h ∈ (convertHoldToSale st holdId details who (.ok newId) true).1.stockHolds,
        h.id ≠ holdId) ∧
    (st.stockHolds.find? (fun h => h.id == holdId) = none →
      convertHoldToSale st holdId details who db deleteOk =
        (st, .err "Stock hold not found")) := by
  constructor
  · intro hold hfind
    have hconv : convertHoldToSale st holdId details who (.ok newId) true =
        (AppState.mk
          (mkSale newId (SaleInput.mk hold.customerId hold.customer hold.country
            hold.endDestination hold.size details.batchNumber hold.units details.price
            details.saleDate (some "stockHold") (some holdId) (some who) who) :: st.sales)
          (st.stockHolds.filter (fun h => h.id != holdId)),
         OpResult.ok newId) := by
      simp only [convertHoldToSale, hfind, addSale, deleteStockHold, if_true]
      rfl
    rw [hconv]
    refine ⟨rfl, ⟨mkSale newId _, rfl, rfl, rfl, rfl, rfl, rfl, rfl, rfl, rfl⟩, rfl, ?_⟩
    intro h hmem
    have := List.of_mem_filter hmem
    simpa using this
  · intro hnone
    simp only [convertHoldToSale, hnone]

/-- Claim C3: `convertHoldToSale` is two sequential operations with no rollback:
if the sale insert fails the state is unchanged (the hold is kept) and the failure is
returned; if the insert succeeds but the hold delete fails, the new sale is kept and
the original hold is still present. -/
theorem convertHoldToSale_no_rollback (st : AppState) (holdId : Nat)
    (details : SaleDetails) (who : String) (m : String) (newId : Nat) (deleteOk : Bool) :
    (∀ hold, st.stockHolds.find? (fun h => h.id == holdId) = some hold →
      convertHoldToSale st holdId details who (.error m) deleteOk = (st, .err m)) ∧
    (∀ hold, st.stockHolds.find? (fun h => h.id == holdId) = some hold →
      (∃ s, (convertHoldToSale st holdId details who (.ok newId) false).1.sales =
          s :: st.sales) ∧
      (convertHoldToSale st holdId details who (.ok newId) false).1.stockHolds =
        st.stockHolds ∧
      hold ∈ (convertHoldToSale st holdId details who (.ok newId) false).1.stockHolds) := by
  constructor
  · intro hold hfind
    simp only [convertHoldToSale, hfind, addSale]
  · intro hold hfind
    simp only [convertHoldToSale, hfind, addSale, deleteStockHold, if_neg]
    refine ⟨⟨mkSale newId _, rfl⟩, rfl, ?_⟩
    exact List.mem_of_find?_eq_some hfind

/-- Claim C5: `revertSaleToHold` fails with "Sale not found" for an absent id and
with "This sale was not converted from a stock hold" when convertedFrom differs from
"stockHold", changing nothing in either case; otherwise it creates a stock hold
carrying the sale customer, country, endDestination, size and units with lineage
revertedFrom = "sale" and originalSaleId equal to the sale id, and deletes the sale. -/
theorem revertSaleToHold_correct (st : AppState) (saleId : Nat) (who : String)
    (todayLocale todayIso : String) (newId : Nat) (db : Except String Nat) (deleteOk : Bool) :
    (st.sales.find? (fun s => s.id == saleId) = none →
      revertSaleToHold st saleId who todayLocale todayIso db deleteOk =
        (st, .err "Sale not found")) ∧
    (∀ sale, st.sales.find? (fun s => s.id == saleId) = some sale →
      sale.convertedFrom ≠ some "stockHold" →
      revertSaleToHold st saleId who todayLocale todayIso db deleteOk =
        (st, .err "This sale was not converted from a stock hold")) ∧
    (∀ sale, st.sales.find? (fun s => s.id == saleId) = some sale →
      sale.convertedFrom = some "stockHold" →
      (revertSaleToHold st saleId who todayLocale todayIso (.ok newId) true).2 = .ok newId ∧
      (∃ h, (revertSaleToHold st saleId who todayLocale todayIso (.ok newId) true).1.stockHolds
          = h :: st.stockHolds ∧
        h.customer = sale.customer ∧ h.country = sale.country ∧
        h.endDestination = sale.endDestination ∧ h.size = sale.size ∧
        h.units = sale.units ∧ h.revertedFrom = some "sale" ∧
        h.originalSaleId = some saleId) ∧
      (revertSaleToHold st saleId who todayLocale todayIso (.ok newId) true).1.sales =
        st.sales.filter (fun s => s.id != saleId)) := by
  refine ⟨?_, ?_, ?_⟩
  · intro hnone
    simp only [revertSaleToHold, hnone]
  · intro sale hfind hne
    simp only [revertSaleToHold, hfind, if_neg hne]
  · intro sale hfind heq
    have hconv : revertSaleToHold st saleId who todayLocale todayIso (.ok newId) true =
        (AppState.mk (st.sales.filter (fun s => s.id != saleId))
          (mkStockHold newId (HoldInput.mk sale.customerId sale.customer sale.country
            sale.endDestination sale.size sale.units (revertVials sale)
            (some ("Reverted from sale on " ++ todayLocale)) todayIso (some "sale")
            (some saleId) (some who) who) :: st.stockHolds),
         OpResult.ok newId) := by
      simp only [revertSaleToHold, hfind, if_pos heq, addStockHold, deleteSale, if_true]
      rfl
    rw [hconv]
    exact ⟨rfl, ⟨mkStockHold newId _, rfl, rfl, rfl, rfl, rfl, rfl, rfl, rfl⟩, rfl⟩

-- ==================== C6 field lists ====================
def saleDataFields : List String :=
  ["customer_id", "customer", "country", "end_destination", "size", "batch_number",
   "units", "price", "sale_date", "converted_from", "original_hold_id", "converted_by",
   "created_by"]

def holdDataFields : List String :=
  ["customer_id", "customer", "country", "end_destination", "size", "units", "vials",
   "notes", "hold_date", "reverted_from", "original_sale_id", "reverted_by", "created_by"]

def commonRecordFields : List String :=
  ["customer_id", "customer", "country", "end_destination", "size", "units", "created_by"]

/-- Claim C6, counterexample: the stock-hold record shape is not the sale record
shape minus price: the sale field batch_number is absent from holds, and the hold
field vials is absent from sales. -/
theorem holdFields_not_sale_minus_price :
    ("batch_number" ∈ saleDataFields ∧ "batch_number" ≠ "price" ∧
      "batch_number" ∉ holdDataFields) ∧
    ("vials" ∈ holdDataFields ∧ "vials" ∉ saleDataFields) := by decide

/-- Claim C6, amended: a StockHold record shares with a Sale record exactly the
fields customer_id, customer, country, end_destination, size, units and created_by;
relative to a Sale it lacks price, batch_number, sale_date and the conversion lineage
(converted_from, original_hold_id, converted_by), and it adds vials, notes, hold_date
and the reversion lineage (reverted_from, original_sale_id, reverted_by). -/
theorem holdFields_vs_saleFields :
    saleDataFields.filter (fun k => decide (k ∈ holdDataFields)) = commonRecordFields ∧
    holdDataFields.filter (fun k => decide (k ∈ saleDataFields)) = commonRecordFields ∧
    saleDataFields.filter (fun k => decide (k ∉ holdDataFields)) =
      ["batch_number", "price", "sale_date", "converted_from", "original_hold_id",
       "converted_by"] ∧
    holdDataFields.filter (fun k => decide (k ∉ saleDataFields)) =
      ["vials", "notes", "hold_date", "reverted_from", "original_sale_id",
       "reverted_by"] := by decide

/-- Claim C7: every pipeline purchase carries a status from the enum
pipelineStatuses; `addPipelinePurchase` assigns "Ordered" when the input carries no
status, membership in the enum is preserved by add (for inputs whose status is empty
or in the enum, as the pipeline form guarantees), by delete, and by the pipeline
form submit handler. -/
theorem pipeline_status_invariant (pps : List PipelinePurchase) (pp : PipelineInput)
    (who : String) (db : Except String Nat) (id : Nat) (dbOk : Bool)
    (hinv : ∀ p ∈ pps, p.status ∈ pipelineStatuses) :
    (pp.status = "" → ∀ newId, (mkPipelinePurchase newId pp who).status = "Ordered") ∧
    (pp.status = "" ∨ pp.status ∈ pipelineStatuses →
      ∀ p ∈ addPipelinePurchase pps pp who db, p.status ∈ pipelineStatuses) ∧
    (∀ p ∈ deletePipelinePurchase pps id dbOk, p.status ∈ pipelineStatuses) ∧
    (∀ form : PipelineForm, form.status ∈ pipelineStatuses →
      ∀ dbf : Except String Nat,
      ∀ p ∈ pipelineHandleSubmit pps form who dbf, p.status ∈ pipelineStatuses) := by
  have haddgen : ∀ (pp2 : PipelineInput) (db2 : Except String Nat),
      pp2.status = "" ∨ pp2.status ∈ pipelineStatuses →
      ∀ p ∈ addPipelinePurchase pps pp2 who db2, p.status ∈ pipelineStatuses := by
    intro pp2 db2 hst p hp
    match db2 with
    | .error m => exact hinv p hp
    | .ok newId =>
      simp only [addPipelinePurchase, List.mem_append, List.mem_singleton] at hp
      rcases hp with hp | hp
      · exact hinv p hp
      · subst hp
        show (if pp2.status = "" then "Ordered" else pp2.status) ∈ pipelineStatuses
        by_cases he : pp2.status = ""
        · rw [if_pos he]
          simp [pipelineStatuses]
        · rw [if_neg he]
          rcases hst with hst | hst
          · exact absurd hst he
          · exact hst
  refine ⟨?_, haddgen pp db, ?_, ?_⟩
  · intro he newId
    show (if pp.status = "" then "Ordered" else pp.status) = "Ordered"
    rw [if_pos he]
  · intro p hp
    unfold deletePipelinePurchase at hp
    by_cases hok : dbOk
    · rw [if_pos hok] at hp
      exact hinv p (List.mem_of_mem_filter hp)
    · rw [if_neg hok] at hp
      exact hinv p hp
  · intro form hform dbf p hp
    unfold pipelineHandleSubmit at hp
    by_cases hc : form.poNumber = "" ∨ form.supplier = "" ∨ form.vials = 0 ∨
        form.pricePerVial = 0 ∨ form.expectedDate = ""
    · rw [if_pos hc] at hp
      exact hinv p hp
    · rw [if_neg hc] at hp
      exact haddgen _ dbf (Or.inr hform) p hp

def specCaseInsensitiveEq (a b : String) : Bool :=
  a.toList.map jsLower == b.toList.map jsLower

def loginUsers : List DbUser :=
  [DbUser.mk 1 "admin" "admin123" "Administrator" "ADM" "admin"]

/-- Claim C8, counterexample: `handleLogin` forwards the submitted username to a
SQL ILIKE pattern match, so the username "%" logs in as the only stored user even
though "%" does not match any stored username case-insensitively. -/
theorem handleLogin_wildcard : (handleLogin loginUsers "%" "admin123" none).2 = .ok ∧
    loginUsers.all (fun u => ! specCaseInsensitiveEq u.username "%") = true := by
  constructor
  · simp [handleLogin, loginQuery, ilike, likeMatch, loginUsers]
  · decide

/-- Claim C8, amended: `handleLogin` succeeds exactly when the user store contains
exactly one user whose username matches the submitted username interpreted as a
case-insensitive SQL LIKE pattern and whose stored password equals the submitted
password string (plaintext comparison); otherwise it fails with "Invalid credentials"
and leaves the current user unchanged. -/
theorem handleLogin_correct (users : List DbUser) (username password : String)
    (cur : Option Session) :
    (∀ u, u ∈ loginQuery users username password ↔
      u ∈ users ∧ ilike username u.username = true ∧ u.password = password) ∧
    ((handleLogin users username password cur).2 = .ok ↔
      (loginQuery users username password).length = 1) ∧
    ((loginQuery users username password).length ≠ 1 →
      (handleLogin users username password cur).2 = .err "Invalid credentials" ∧
      (handleLogin users username password cur).1 = cur) ∧
    (∀ u, loginQuery users username password = [u] →
      (handleLogin users username password cur).1 = some (mkSession u)) := by
  refine ⟨?_, ?_, ?_, ?_⟩
  · intro u
    simp [loginQuery, List.mem_filter]
  · match hq : loginQuery users username password with
    | [] => simp [handleLogin, hq]
    | [u] => simp [handleLogin, hq]
    | u :: v :: rest => simp [handleLogin, hq]
  · intro hne
    match hq : loginQuery users username password with
    | [] => simp [handleLogin, hq]
    | [u] => exact absurd (by rw [hq]; rfl) hne
    | u :: v :: rest => simp [handleLogin, hq]
  · intro u hq
    simp [handleLogin, hq]

-- ==================== C10 ====================
def deleteUserSeq (users : List DbUser) (ops : List (Nat × Bool)) : List DbUser :=
  ops.foldl (fun us op => (deleteUser us op.1 op.2).1) users

theorem deleteUser_step_admin (users : List DbUser) (id : Nat) (dbOk : Bool)
    (hnd : (users.map (fun u => u.id)).Nodup)
    (hadmin : ∃ u ∈ users, u.username = "admin") :
    ∃ u ∈ (deleteUser users id dbOk).1, u.username = "admin" := by
  obtain ⟨a, ha, haname⟩ := hadmin
  cases hfind : users.find? (fun u => u.id == id) with
  | some v =>
    simp only [deleteUser, hfind]
    by_cases hv : v.username = "admin"
    · rw [if_pos hv]
      exact ⟨a, ha, haname⟩
    · rw [if_neg hv]
      by_cases hok : dbOk
      · rw [if_pos hok]
        refine ⟨a, List.mem_filter.mpr ⟨ha, ?_⟩, haname⟩
        have hvmem : v ∈ users := List.mem_of_find?_eq_some hfind
        have hvid : v.id = id := by
          have := List.find?_some hfind
          simpa using this
        have hane : a.id ≠ id := by
          intro haid
          have hav : a = v := by
            have hinj := List.inj_on_of_nodup_map hnd
            exact hinj ha hvmem (by rw [haid, hvid])
          exact hv (hav ▸ haname)
        simpa using hane
      · rw [if_neg hok]
        exact ⟨a, ha, haname⟩
  | none =>
    simp only [deleteUser, hfind]
    by_cases hok : dbOk
    · rw [if_pos hok]
      refine ⟨a, List.mem_filter.mpr ⟨ha, ?_⟩, haname⟩
      have := List.find?_eq_none.mp hfind a ha
      simpa using this
    · rw [if_neg hok]
      exact ⟨a, ha, haname⟩

theorem deleteUser_step_nodup (users : List DbUser) (id : Nat) (dbOk : Bool)
    (hnd : (users.map (fun u => u.id)).Nodup) :
    (((deleteUser users id dbOk).1.map (fun u => u.id))).Nodup := by
  cases hfind : users.find? (fun u => u.id == id) with
  | some v =>
    simp only [deleteUser, hfind]
    by_cases hv : v.username = "admin"
    · rw [if_pos hv]
      exact hnd
    · rw [if_neg hv]
      by_cases hok : dbOk
      · rw [if_pos hok]
        exact List.Nodup.sublist ((List.filter_sublist users).map (fun u => u.id)) hnd
      · rw [if_neg hok]
        exact hnd
  | none =>
    simp only [deleteUser, hfind]
    by_cases hok : dbOk
    · rw [if_pos hok]
      exact List.Nodup.sublist ((List.filter_sublist users).map (fun u => u.id)) hnd
    · rw [if_neg hok]
      exact hnd

/-- Claim C10: `deleteUser` leaves the users list unchanged and performs no delete
call when the user found under the given id has username "admin"; consequently,
whenever the ids are distinct (database primary keys) and an admin user is present,
it is still present after any sequence of deleteUser calls. -/
theorem deleteUser_admin_protected (users : List DbUser) (id : Nat) (dbOk : Bool)
    (ops : List (Nat × Bool)) :
    (∀ u, users.find? (fun x => x.id == id) = some u → u.username = "admin" →
      deleteUser users id dbOk = (users, false)) ∧
    ((users.map (fun u => u.id)).Nodup → (∃ u ∈ users, u.username = "admin") →
      ∃ u ∈ deleteUserSeq users ops, u.username = "admin") := by
  constructor
  · intro u hfind hadmin
    unfold deleteUser
    rw [hfind]
    simp [hadmin]
  · intro hnd hadmin
    induction ops generalizing users with
    | nil => exact hadmin
    | cons op ops ih =>
      exact ih (deleteUser users op.1 op.2).1
        (deleteUser_step_nodup users op.1 op.2 hnd)
        (deleteUser_step_admin users op.1 op.2 hnd hadmin)

/-- Claim C9: the key-case conversions round-trip: `toCamelCase` after `toSnakeCase`
is the identity on values all of whose object keys are a lowercase letter followed by
letters (no underscores), and `toSnakeCase` after `toCamelCase` is the identity on
values all of whose object keys are lowercase snake_case with single underscores each
followed by a lowercase letter; nested objects and arrays included. -/
theorem case_conversion_roundtrip (v w : JVal) (hv : camelShaped v = true)
    (hw : snakeShaped w = true) :
    toCamelCase (toSnakeCase v) = v ∧ toSnakeCase (toCamelCase w) = w :=
  ⟨toCamel_toSnake v hv, toSnake_toCamel w hw⟩

def jv0 : JVal :=
  .obj [("batchNumber", .num 1), ("endDestination", .obj [("aB", .null)]),
    ("xs", .arr [.str "q"])]

def jw0 : JVal :=
  .obj [("batch_number", .num 1), ("end_destination", .obj [("a_b", .null)]),
    ("xs", .arr [.str "q"])]

/-- Witness for C9 at a concrete nested value. -/
theorem case_conversion_roundtrip_witness :
    camelShaped jv0 = true ∧ snakeShaped jw0 = true ∧
    (toCamelCase (toSnakeCase jv0) = jv0 ∧ toSnakeCase (toCamelCase jw0) = jw0) :=
  ⟨rfl, rfl, case_conversion_roundtrip jv0 jw0 rfl rfl⟩

/-- Witness for C1 at a concrete purchase list and the size 5ml. -/
theorem calcMetrics_stock_correct_witness :
    "5ml" ∈ SIZES ∧
    (calcMetrics [] [purchase0] [] "5ml").stockVials =
      (calcMetrics [] [purchase0] [] "5ml").stock * vialsPerPack "5ml" :=
  ⟨by decide, (calcMetrics_stock_correct [] [purchase0] [] "5ml" (by decide)).2.1⟩

/-- Witness for C4: with no purchases the margin equals the revenue. -/
theorem calcMetrics_margin_correct_witness :
    (calcMetrics [] [] [] "5ml").margin = (calcMetrics [] [] [] "5ml").revenue :=
  (calcMetrics_margin_correct [] [] [] "5ml").2 (by simp)

def hold0 : StockHold :=
  StockHold.mk 1 (some 7) "ACME" "France" "Morocco" "5ml" 10 50 none "2026-01-02"
    none none none "AB"

def st0 : AppState := AppState.mk [] [hold0]

def details0 : SaleDetails := SaleDetails.mk (some "B42") 25 "2026-02-03"

/-- Witness for C2 at a concrete one-hold state. -/
theorem convertHoldToSale_correct_witness :
    st0.stockHolds.find? (fun h => h.id == 1) = some hold0 ∧
    (convertHoldToSale st0 1 details0 "AB" (.ok 42) true).2 = .ok 42 :=
  ⟨rfl, ((convertHoldToSale_correct st0 1 details0 "AB" 42 (.ok 42) true).1 hold0 rfl).1⟩

/-- Witness for C3: when the hold delete fails the stockHolds collection is kept. -/
theorem convertHoldToSale_no_rollback_witness :
    st0.stockHolds.find? (fun h => h.id == 1) = some hold0 ∧
    (convertHoldToSale st0 1 details0 "AB" (.ok 42) false).1.stockHolds =
      st0.stockHolds :=
  ⟨rfl, (((convertHoldToSale_no_rollback st0 1 details0 "AB" "boom" 42 false).2)
    hold0 rfl).2.1⟩

def sale0 : Sale :=
  Sale.mk 5 (some 7) "ACME" "France" "Morocco" "5ml" (some "B42") 10 25 "2026-02-03"
    none (some "stockHold") (some 1) (some "AB") "AB"

def st1 : AppState := AppState.mk [sale0] []

/-- Witness for C5 at a concrete converted sale. -/
theorem revertSaleToHold_correct_witness :
    st1.sales.find? (fun s => s.id == 5) = some sale0 ∧
    sale0.convertedFrom = some "stockHold" ∧
    (revertSaleToHold st1 5 "AB" "2/3/2026" "2026-02-03" (.ok 42) true).2 = .ok 42 :=
  ⟨rfl, rfl,
    ((revertSaleToHold_correct st1 5 "AB" "2/3/2026" "2026-02-03" 42 (.ok 42) true).2.2
      sale0 rfl rfl).1⟩

def pipelineInput0 : PipelineInput :=
  PipelineInput.mk "PO1" "Sup" "5ml" 2 50 100 "2026-03-01" ""

/-- Witness for C7: an input carrying no status is stored with status Ordered. -/
theorem pipeline_status_invariant_witness :
    (∀ p ∈ ([] : List PipelinePurchase), p.status ∈ pipelineStatuses) ∧
    (mkPipelinePurchase 1 pipelineInput0 "AB").status = "Ordered" :=
  ⟨by simp,
    (pipeline_status_invariant [] pipelineInput0 "AB" (.ok 1) 0 true (by simp)).1 rfl 1⟩

/-- Witness for C8 amended: a wrong password yields Invalid credentials and leaves
the current user unchanged. -/
theorem handleLogin_correct_witness :
    (handleLogin loginUsers "admin" "wrong" none).2 = .err "Invalid credentials" ∧
    (handleLogin loginUsers "admin" "wrong" none).1 = none :=
  (handleLogin_correct loginUsers "admin" "wrong" none).2.2.1
    (by simp [loginQuery, ilike, likeMatch, jsLower, loginUsers])

def adminUser0 : DbUser := DbUser.mk 1 "admin" "admin123" "Administrator" "ADM" "admin"

def bobUser0 : DbUser := DbUser.mk 2 "bob" "pw" "Bob" "BOB" "user"

def users0 : List DbUser := [adminUser0, bobUser0]

/-- Witness for C10: deleting the admin id is refused, and the admin survives a
sequence of delete calls. -/
theorem deleteUser_admin_protected_witness :
    (users0.find? (fun x => x.id == 1) = some adminUser0 ∧
      adminUser0.username = "admin" ∧ deleteUser users0 1 true = (users0, false)) ∧
    (∃ u ∈ deleteUserSeq users0 [(2, true), (1, true)], u.username = "admin") :=
  ⟨⟨rfl, rfl, (deleteUser_admin_protected users0 1 true []).1 adminUser0 rfl rfl⟩,
    (deleteUser_admin_protected users0 0 true [(2, true), (1, true)]).2 (by decide)
      ⟨adminUser0, by decide, rfl⟩⟩

end EurofolicCIMS
